import Mathlib

/-!
Verification of the OKX profit-tracking core: request signing (HMAC-SHA256 +
base64), the exchange-client error normalisation, the daily fetch-and-aggregate
pass, and the daily/monthly query surface, shallowly embedded from
`src/main.py` (class `OKXTracker`).

Python `dict`s (insertion-ordered, unique keys) are embedded as association
lists `List (String × α)`; `dict.get k default` is `getKey`/`getD`, and
`d[k] = v` is `setKey` (replace in place if the key exists, else append).
Decimal arithmetic is embedded as `ℚ`.
-/

namespace OkxTracker

/-- Lookup in an insertion-ordered association list: `d.get(k)` on a dict. -/
def getKey {α : Type} : List (String × α) → String → Option α
  | [], _ => none
  | p :: rest, k => if p.1 = k then some p.2 else getKey rest k

/-- Update of an insertion-ordered association list: `d[k] = v` on a dict.
If the key is present its first binding is replaced in place, otherwise the
binding is appended at the end. -/
def setKey {α : Type} : List (String × α) → String → α → List (String × α)
  | [], k, v => [(k, v)]
  | p :: rest, k, v => if p.1 = k then (k, v) :: rest else p :: setKey rest k v

theorem getKey_setKey_self {α : Type} (l : List (String × α)) (k : String) (v : α) :
    getKey (setKey l k v) k = some v := by
  induction l with
  | nil => simp [getKey, setKey]
  | cons p rest ih =>
    by_cases h : p.1 = k
    · simp [setKey, h, getKey]
    · simp [setKey, h, getKey, ih]

theorem getKey_setKey_ne {α : Type} (l : List (String × α)) (k k' : String) (v : α)
    (h : k ≠ k') : getKey (setKey l k v) k' = getKey l k' := by
  induction l with
  | nil => simp [getKey, setKey, h]
  | cons p rest ih =>
    by_cases hp : p.1 = k
    · subst hp
      simp [setKey, getKey, h, ih]
    · by_cases hp' : p.1 = k'
      · simp [setKey, hp, getKey, hp', Ne.symm h]
      · simp [setKey, hp, getKey, hp', ih]

theorem mem_setKey {α : Type} (l : List (String × α)) (k : String) (v : α) (q : String × α)
    (h : q ∈ setKey l k v) : q = (k, v) ∨ q ∈ l := by
  induction l with
  | nil => simpa [setKey] using h
  | cons p rest ih =>
    by_cases hp : p.1 = k
    · have hs : setKey (p :: rest) k v = (k, v) :: rest := by simp [setKey, hp]
      rw [hs] at h
      rcases List.mem_cons.mp h with h1 | h1
      · exact Or.inl h1
      · exact Or.inr (List.mem_cons_of_mem _ h1)
    · have hs : setKey (p :: rest) k v = p :: setKey rest k v := by simp [setKey, hp]
      rw [hs] at h
      rcases List.mem_cons.mp h with h1 | h1
      · exact Or.inr (by simp [h1])
      · rcases ih h1 with h' | h'
        · exact Or.inl h'
        · exact Or.inr (List.mem_cons_of_mem _ h')

theorem getKey_mem {α : Type} (l : List (String × α)) (k : String) (v : α)
    (h : getKey l k = some v) : (k, v) ∈ l := by
  induction l with
  | nil => simp [getKey] at h
  | cons p rest ih =>
    by_cases hp : p.1 = k
    · have hg : getKey (p :: rest) k = some p.2 := by simp [getKey, hp]
      rw [hg, Option.some.injEq] at h
      subst h
      exact List.mem_cons.mpr (Or.inl (by rw [← hp]))
    · have hg : getKey (p :: rest) k = getKey rest k := by simp [getKey, hp]
      rw [hg] at h
      exact List.mem_cons_of_mem _ (ih h)

/-- Uniqueness of values under a key when the key list has no duplicates. -/
theorem mem_keyval_unique {α : Type} (l : List (String × α))
    (hnd : (l.map Prod.fst).Nodup) (k : String) (a b : α)
    (ha : (k, a) ∈ l) (hb : (k, b) ∈ l) : a = b := by
  induction l with
  | nil => simp at ha
  | cons p rest ih =>
    simp only [List.map_cons, List.nodup_cons] at hnd
    rcases List.mem_cons.mp ha with h1 | h1 <;> rcases List.mem_cons.mp hb with h2 | h2
    · exact congrArg Prod.snd (h1.trans h2.symm)
    · exfalso
      apply hnd.1
      have hk : p.1 = k := (congrArg Prod.fst h1).symm
      rw [hk]
      exact List.mem_map_of_mem (f := Prod.fst) h2
    · exfalso
      apply hnd.1
      have hk : p.1 = k := (congrArg Prod.fst h2).symm
      rw [hk]
      exact List.mem_map_of_mem (f := Prod.fst) h1
    · exact ih hnd.2 h1 h2

/-! ## Data model (from `src/main.py`, class `OKXTracker`)

A trade fill (`{pnl, instId, ...}`) is embedded by the one field the
aggregation reads: `pnl`, an optional decimal (`trade.get('pnl', 0)` defaults
a missing field to `0`). -/

/-- One trade fill returned by the fills-history endpoint. `pnl` is `none`
when the JSON object has no `pnl` field. -/
structure Fill where
  pnl : Option ℚ
deriving DecidableEq

/-- `float(trade.get('pnl', 0))`: the fill's pnl, a missing field reading 0. -/
def pnlVal (f : Fill) : ℚ := f.pnl.getD 0

/-- Static bot configuration value: `{"symbol": ..., "strategy": ...}`. -/
structure BotInfo where
  symbol : String
  strategy : String
deriving DecidableEq

/-- `self.trading_bots` from `OKXTracker.__init__`. -/
def trading_bots : List (String × BotInfo) :=
  [("Bot-DCA-BTC", ⟨"BTC-USDT", "DCA"⟩),
   ("Bot-Grid-ETH", ⟨"ETH-USDT", "Grid"⟩),
   ("Bot-Martingale-BNB", ⟨"BNB-USDT", "Martingale"⟩)]

/-- Per-bot daily statistic written by `calculate_daily_profit`. -/
structure BotDailyStat where
  symbol : String
  profit_usdt : ℚ
  profit_percentage : ℚ
  trades_count : Nat
deriving DecidableEq

/-- One day's record: bot name → statistic (a Python dict). -/
abbrev DailyRecord : Type := List (String × BotDailyStat)

/-- `self.daily_data`: date (`YYYY-MM-DD`) → that day's record. -/
abbrev Store : Type := List (String × DailyRecord)

/-- The envelope of the fills-history endpoint: `{code, data}`. -/
structure FillsResponse where
  code : String
  data : List Fill
deriving DecidableEq

/-- `get_trading_history`, applied to the (already normalised) result of
`make_okx_request`: the fills when the call succeeded and the envelope code is
the success code `"0"`, otherwise the empty list. -/
def get_trading_history (resp : Option FillsResponse) : List Fill :=
  match resp with
  | some r => if r.code = "0" then r.data else []
  | none => []

/-! ## ProfitAggregator: `calculate_daily_profit`

The per-symbol exchange answer is an oracle `resp : String → Option
FillsResponse` (the normalised result of `make_okx_request` for that symbol's
fills-history call); the bot table and the current date string are passed
explicitly (they are `self.trading_bots` and `datetime.now().strftime(...)` in
the source). -/

/-- The body of the per-bot loop in `calculate_daily_profit`. -/
def dailyStep (resp : String → Option FillsResponse) (bp : DailyRecord)
    (bot : String × BotInfo) : DailyRecord :=
  let trades := get_trading_history (resp bot.2.symbol)
  if trades.isEmpty then bp
  else
    let profit := (trades.map pnlVal).sum
    let profit_percentage := if profit ≠ 0 then profit / 1000 * 100 else 0
    setKey bp bot.1 ⟨bot.2.symbol, profit, profit_percentage, trades.length⟩

/-- `calculate_daily_profit`: one daily pass. Returns the updated store
(`self.daily_data` after `self.daily_data[today] = bot_profits`) together with
the returned record `bot_profits`. -/
def calculate_daily_profit (bots : List (String × BotInfo))
    (resp : String → Option FillsResponse) (today : String)
    (daily_data : Store) : Store × DailyRecord :=
  let bot_profits := bots.foldl (dailyStep resp) []
  (setKey daily_data today bot_profits, bot_profits)

/-- `get_daily_summary`: `self.daily_data.get(date, {})`, where a `None` (or
falsy, i.e. empty) date argument defaults to today's date string. -/
def get_daily_summary (daily_data : Store) (todayDate : String)
    (date : Option String) : DailyRecord :=
  let d := match date with
    | none => todayDate
    | some s => if s = "" then todayDate else s
  (getKey daily_data d).getD []

/-! ## MonthlyView: `get_monthly_summary` -/

/-- Monthly per-bot aggregate. -/
structure MonthlyAgg where
  total_profit : ℚ
  total_trades : Nat
  active_days : Nat
  avg_percentage : ℚ
deriving DecidableEq

/-- The zero aggregate a bot is initialised with on first sight. -/
def zeroAgg : MonthlyAgg := ⟨0, 0, 0, 0⟩

/-- The body of the inner loop of `get_monthly_summary`: fold one bot's daily
statistic into the accumulating summary. -/
def monthlyStep (acc : List (String × MonthlyAgg)) (q : String × BotDailyStat) :
    List (String × MonthlyAgg) :=
  let cur := (getKey acc q.1).getD zeroAgg
  let tp := cur.total_profit + q.2.profit_usdt
  let tt := cur.total_trades + q.2.trades_count
  let ad := cur.active_days + 1
  setKey acc q.1 ⟨tp, tt, ad, if 0 < ad then tp / (ad : ℚ) else 0⟩

/-- `str.startswith` on the underlying character sequences. -/
def startsWithStr (s p : String) : Bool := List.isPrefixOf p.data s.data

/-- `get_monthly_summary`: fold every stored day whose date key starts with
the current `YYYY-MM` prefix into per-bot monthly aggregates. -/
def get_monthly_summary (current_month : String) (daily_data : Store) :
    List (String × MonthlyAgg) :=
  daily_data.foldl
    (fun acc p =>
      if startsWithStr p.1 current_month then p.2.foldl monthlyStep acc else acc)
    []

/-! ## Lemmas on the daily-pass fold -/

theorem daily_fold_not_mem (resp : String → Option FillsResponse)
    (bots : List (String × BotInfo)) (bot : String)
    (h : bot ∉ bots.map Prod.fst) :
    ∀ acc, getKey (bots.foldl (dailyStep resp) acc) bot = getKey acc bot := by
  induction bots with
  | nil => intro acc; rfl
  | cons b rest ih =>
    intro acc
    simp only [List.map_cons, List.mem_cons, not_or] at h
    rw [List.foldl_cons, ih h.2]
    unfold dailyStep
    cases hEmpty : (get_trading_history (resp b.2.symbol)).isEmpty
    · simp only [hEmpty, Bool.false_eq_true, if_false]
      exact getKey_setKey_ne _ _ _ _ (Ne.symm h.1)
    · simp only [hEmpty, if_true]

theorem daily_fold_getKey (resp : String → Option FillsResponse)
    (bots : List (String × BotInfo)) (bot : String) (info : BotInfo)
    (hnd : (bots.map Prod.fst).Nodup) (hmem : (bot, info) ∈ bots)
    (acc : DailyRecord) :
    getKey (bots.foldl (dailyStep resp) acc) bot =
      if (get_trading_history (resp info.symbol)).isEmpty then getKey acc bot
      else some ⟨info.symbol, ((get_trading_history (resp info.symbol)).map pnlVal).sum,
        if ((get_trading_history (resp info.symbol)).map pnlVal).sum ≠ 0 then
          ((get_trading_history (resp info.symbol)).map pnlVal).sum / 1000 * 100
        else 0,
        (get_trading_history (resp info.symbol)).length⟩ := by
  induction bots generalizing acc with
  | nil => simp at hmem
  | cons b rest ih =>
    simp only [List.map_cons, List.nodup_cons] at hnd
    rw [List.foldl_cons]
    rcases List.mem_cons.mp hmem with h1 | h1
    · have hb : b.1 = bot := (congrArg Prod.fst h1).symm
      have hi : b.2 = info := (congrArg Prod.snd h1).symm
      have hnotmem : bot ∉ rest.map Prod.fst := by rw [← hb]; exact hnd.1
      rw [daily_fold_not_mem resp rest bot hnotmem]
      unfold dailyStep
      rw [hb, hi]
      cases hEmpty : (get_trading_history (resp info.symbol)).isEmpty
      · simp only [hEmpty, Bool.false_eq_true, if_false]
        exact getKey_setKey_self _ _ _
      · simp only [hEmpty, if_true]
    · have hb : b.1 ≠ bot := by
        intro hc
        apply hnd.1
        rw [hc]
        exact List.mem_map_of_mem (f := Prod.fst) h1
      have hstep : getKey (dailyStep resp acc b) bot = getKey acc bot := by
        unfold dailyStep
        cases hEmpty : (get_trading_history (resp b.2.symbol)).isEmpty
        · simp only [hEmpty, Bool.false_eq_true, if_false]
          exact getKey_setKey_ne _ _ _ _ hb
        · simp only [hEmpty, if_true]
      rw [ih hnd.2 h1 (dailyStep resp acc b), hstep]

theorem daily_fold_all_empty (resp : String → Option FillsResponse)
    (bots : List (String × BotInfo))
    (h : ∀ b ∈ bots, get_trading_history (resp b.2.symbol) = []) :
    ∀ acc, bots.foldl (dailyStep resp) acc = acc := by
  induction bots with
  | nil => intro acc; rfl
  | cons b rest ih =>
    intro acc
    rw [List.foldl_cons]
    have hb : get_trading_history (resp b.2.symbol) = [] := h b (List.mem_cons_self b rest)
    have hstep : dailyStep resp acc b = acc := by
      unfold dailyStep
      simp [hb]
    rw [hstep]
    exact ih (fun b' hb' => h b' (List.mem_cons_of_mem _ hb')) acc

theorem percent_ite (p : ℚ) : (if p ≠ 0 then p / 1000 * 100 else 0) = p / 1000 * 100 := by
  by_cases h : p = 0 <;> simp [h]

/-! ## Claims about the daily pass and the daily query -/

/-- Claim C1: in a daily pass, every bot whose fetch returns a non-empty fill
list is recorded with `profit_usdt` the sum of the fills' pnl values (a
missing pnl reading 0), `profit_percentage = (profit_usdt / 1000) * 100`, and
`trades_count` the number of fills; the record for today's date in the store
is exactly the record carrying these statistics. -/
theorem claim_C1 (bots : List (String × BotInfo))
    (resp : String → Option FillsResponse) (today : String) (store : Store)
    (bot : String) (info : BotInfo)
    (hnd : (bots.map Prod.fst).Nodup) (hmem : (bot, info) ∈ bots)
    (hne : get_trading_history (resp info.symbol) ≠ []) :
    getKey (calculate_daily_profit bots resp today store).2 bot =
      some ⟨info.symbol,
        ((get_trading_history (resp info.symbol)).map pnlVal).sum,
        ((get_trading_history (resp info.symbol)).map pnlVal).sum / 1000 * 100,
        (get_trading_history (resp info.symbol)).length⟩ ∧
    getKey (calculate_daily_profit bots resp today store).1 today =
      some (calculate_daily_profit bots resp today store).2 := by
  constructor
  · have h := daily_fold_getKey resp bots bot info hnd hmem []
    have hEmpty : (get_trading_history (resp info.symbol)).isEmpty = false := by
      cases hE : (get_trading_history (resp info.symbol)).isEmpty
      · rfl
      · exact absurd (List.isEmpty_iff.mp hE) hne
    rw [calculate_daily_profit] at *
    rw [h, hEmpty]
    simp only [Bool.false_eq_true, if_false, percent_ite]
  · exact getKey_setKey_self _ _ _

/-- Witness for C1 at Scenario A: two fills with pnl 10.5 and -2.0 give
profit 8.5, percentage 0.85 and 2 trades. -/
theorem claim_C1_witness :
    getKey (calculate_daily_profit [("X", ⟨"S", "DCA"⟩)]
      (fun _ => some ⟨"0", [⟨some (10.5 : ℚ)⟩, ⟨some (-2.0 : ℚ)⟩]⟩)
      "2025-10-11" []).2 "X"
      = some ⟨"S", (8.5 : ℚ), (0.85 : ℚ), 2⟩ := by
  have h := (claim_C1 [("X", ⟨"S", "DCA"⟩)]
    (fun _ => some ⟨"0", [⟨some (10.5 : ℚ)⟩, ⟨some (-2.0 : ℚ)⟩]⟩)
    "2025-10-11" [] "X" ⟨"S", "DCA"⟩
    (by decide) (by decide) (by decide)).1
  rw [h]
  simp only [get_trading_history, pnlVal, List.map_cons, List.map_nil, List.sum_cons,
    List.sum_nil, Option.getD_some, List.length_cons, List.length_nil, if_pos]
  norm_num

/-- Claim C3 counterexample: the claim says an all-empty pass leaves a
previously stored record for the date unchanged; in the source the assignment
`self.daily_data[today] = bot_profits` is unconditional, so the prior record
is overwritten with the empty record. -/
theorem claim_C3_counterexample :
    (calculate_daily_profit trading_bots (fun _ => none) "2025-10-01"
      [("2025-10-01", [("Bot-DCA-BTC", ⟨"BTC-USDT", 1, 1, 1⟩)])]).1
    ≠ [("2025-10-01", [("Bot-DCA-BTC", ⟨"BTC-USDT", 1, 1, 1⟩)])] := by
  decide

/-- Claim C3 amended: if every bot's fetch fails or returns an empty fill
list, the pass produces the empty record and stores it for the date,
replacing (not preserving) whatever record was previously stored there. -/
theorem claim_C3_amended (bots : List (String × BotInfo))
    (resp : String → Option FillsResponse) (today : String) (store : Store)
    (hempty : ∀ b ∈ bots, get_trading_history (resp b.2.symbol) = []) :
    (calculate_daily_profit bots resp today store).2 = [] ∧
    (calculate_daily_profit bots resp today store).1 = setKey store today [] ∧
    getKey (calculate_daily_profit bots resp today store).1 today = some [] := by
  have h2 : (calculate_daily_profit bots resp today store).2 = [] :=
    daily_fold_all_empty resp bots hempty []
  refine ⟨h2, ?_, ?_⟩
  · show setKey store today (bots.foldl (dailyStep resp) []) = setKey store today []
    rw [daily_fold_all_empty resp bots hempty []]
  · show getKey (setKey store today (bots.foldl (dailyStep resp) [])) today = some []
    rw [daily_fold_all_empty resp bots hempty []]
    exact getKey_setKey_self _ _ _

/-- Witness for the amended C3 on the configured bot table with every fetch
failing over a store that already holds a record for the date. -/
theorem claim_C3_amended_witness :
    (calculate_daily_profit trading_bots (fun _ => none) "2025-10-01"
      [("2025-10-01", [("Bot-DCA-BTC", ⟨"BTC-USDT", 1, 1, 1⟩)])]).2 = [] ∧
    getKey (calculate_daily_profit trading_bots (fun _ => none) "2025-10-01"
      [("2025-10-01", [("Bot-DCA-BTC", ⟨"BTC-USDT", 1, 1, 1⟩)])]).1 "2025-10-01"
      = some [] := by
  have h := claim_C3_amended trading_bots (fun _ => none) "2025-10-01"
    [("2025-10-01", [("Bot-DCA-BTC", ⟨"BTC-USDT", 1, 1, 1⟩)])]
    (by intro b _; rfl)
  exact ⟨h.1, h.2.2⟩

/-- Claim C4: a bot whose fetch returns an empty fill list (in particular on
failure, which is surfaced as the empty list) is omitted from the produced
record and from the record stored for that day. -/
theorem claim_C4 (bots : List (String × BotInfo))
    (resp : String → Option FillsResponse) (today : String) (store : Store)
    (bot : String) (info : BotInfo)
    (hnd : (bots.map Prod.fst).Nodup) (hmem : (bot, info) ∈ bots)
    (hempty : get_trading_history (resp info.symbol) = []) :
    getKey (calculate_daily_profit bots resp today store).2 bot = none ∧
    getKey ((getKey (calculate_daily_profit bots resp today store).1 today).getD [])
      bot = none := by
  have h := daily_fold_getKey resp bots bot info hnd hmem []
  have hEmpty : (get_trading_history (resp info.symbol)).isEmpty = true :=
    List.isEmpty_iff.mpr hempty
  have hmain : getKey (calculate_daily_profit bots resp today store).2 bot = none := by
    rw [calculate_daily_profit] at *
    rw [h, hEmpty]
    simp only [if_true]
    rfl
  refine ⟨hmain, ?_⟩
  have hstore : getKey (calculate_daily_profit bots resp today store).1 today =
      some (calculate_daily_profit bots resp today store).2 :=
    getKey_setKey_self _ _ _
  rw [hstore]
  exact hmain

/-- Witness for C4 (Scenario B): an empty fill list for bot X leaves no key
for X in the day's record, produced or stored. -/
theorem claim_C4_witness :
    getKey (calculate_daily_profit [("X", ⟨"S", "DCA"⟩)]
      (fun _ => some ⟨"0", []⟩) "2025-10-11" []).2 "X" = none ∧
    getKey ((getKey (calculate_daily_profit [("X", ⟨"S", "DCA"⟩)]
      (fun _ => some ⟨"0", []⟩) "2025-10-11" []).1 "2025-10-11").getD [])
      "X" = none :=
  claim_C4 [("X", ⟨"S", "DCA"⟩)] (fun _ => some ⟨"0", []⟩) "2025-10-11" []
    "X" ⟨"S", "DCA"⟩ (by decide) (by decide) (by decide)

/-- Claim C5: a daily pass overwrites the date's slot wholesale: afterwards
the store maps the date to exactly the newly produced record, and every other
date's entry is untouched. -/
theorem claim_C5 (bots : List (String × BotInfo))
    (resp : String → Option FillsResponse) (today : String) (store : Store) :
    getKey (calculate_daily_profit bots resp today store).1 today
      = some (calculate_daily_profit bots resp today store).2 ∧
    ∀ d, d ≠ today →
      getKey (calculate_daily_profit bots resp today store).1 d = getKey store d := by
  constructor
  · exact getKey_setKey_self _ _ _
  · intro d hd
    exact getKey_setKey_ne _ _ _ _ (Ne.symm hd)

/-- Witness for C5: rerunning a pass over a store that already holds a record
for the date replaces it with the recomputed record and leaves another date
alone. -/
theorem claim_C5_witness :
    getKey (calculate_daily_profit [("X", ⟨"S", "DCA"⟩)]
      (fun _ => some ⟨"0", [⟨some (1 : ℚ)⟩]⟩) "2025-10-11"
      [("2025-10-11", [("X", ⟨"S", 7, 7, 7⟩)]), ("2025-10-10", [])]).1 "2025-10-11"
      = some (calculate_daily_profit [("X", ⟨"S", "DCA"⟩)]
      (fun _ => some ⟨"0", [⟨some (1 : ℚ)⟩]⟩) "2025-10-11"
      [("2025-10-11", [("X", ⟨"S", 7, 7, 7⟩)]), ("2025-10-10", [])]).2 ∧
    getKey (calculate_daily_profit [("X", ⟨"S", "DCA"⟩)]
      (fun _ => some ⟨"0", [⟨some (1 : ℚ)⟩]⟩) "2025-10-11"
      [("2025-10-11", [("X", ⟨"S", 7, 7, 7⟩)]), ("2025-10-10", [])]).1 "2025-10-10"
      = getKey [("2025-10-11", [("X", ⟨"S", 7, 7, 7⟩)]), ("2025-10-10", [])] "2025-10-10" :=
  ⟨(claim_C5 [("X", ⟨"S", "DCA"⟩)] (fun _ => some ⟨"0", [⟨some (1 : ℚ)⟩]⟩) "2025-10-11"
      [("2025-10-11", [("X", ⟨"S", 7, 7, 7⟩)]), ("2025-10-10", [])]).1,
   (claim_C5 [("X", ⟨"S", "DCA"⟩)] (fun _ => some ⟨"0", [⟨some (1 : ℚ)⟩]⟩) "2025-10-11"
      [("2025-10-11", [("X", ⟨"S", 7, 7, 7⟩)]), ("2025-10-10", [])]).2 "2025-10-10"
      (by decide)⟩

/-- Claim C9: `get_daily_summary` is a pure read returning the stored record
for the requested date, today's record when no date is given, and the empty
record when nothing is stored under the date. -/
theorem claim_C9 (store : Store) (todayDate : String) (date : Option String) :
    (date = none →
      get_daily_summary store todayDate date = (getKey store todayDate).getD []) ∧
    (∀ d, date = some d → d ≠ "" →
      get_daily_summary store todayDate date = (getKey store d).getD []) := by
  constructor
  · intro h
    subst h
    rfl
  · intro d h hne
    subst h
    show (getKey store (if d = "" then todayDate else d)).getD [] = (getKey store d).getD []
    rw [if_neg hne]

/-- Witness for C9 (Scenario D): a lookup of 2099-01-01 on the empty store
returns the empty record. -/
theorem claim_C9_witness :
    get_daily_summary [] "2025-10-12" (some "2099-01-01") = [] := by
  have h := (claim_C9 [] "2025-10-12" (some "2099-01-01")).2 "2099-01-01" rfl (by decide)
  rw [h]
  rfl

/-! ## Characterisation of the monthly fold

`recStatsFor`/`botStatsFor` collect, in store order, the daily statistics of
one bot over the records of the current month; `accAgg` is the accumulated
aggregate the fold computes over such a list of statistics. -/

/-- The statistics recorded under `bot` in one day's record. -/
def recStatsFor (rec : DailyRecord) (bot : String) : List BotDailyStat :=
  rec.foldr (fun q acc => if q.1 = bot then q.2 :: acc else acc) []

/-- The statistics recorded under `bot` over the records of month `m`. -/
def botStatsFor (m : String) (store : Store) (bot : String) : List BotDailyStat :=
  store.foldr
    (fun p acc => if startsWithStr p.1 m then recStatsFor p.2 bot ++ acc else acc) []

/-- Folding a list of daily statistics into a base aggregate: profits and
trade counts are summed, each statistic contributes one active day, and the
average is the final total profit divided by the final active-day count. -/
def accAgg (base : MonthlyAgg) (stats : List BotDailyStat) : MonthlyAgg :=
  ⟨base.total_profit + (stats.map (·.profit_usdt)).sum,
   base.total_trades + (stats.map (·.trades_count)).sum,
   base.active_days + stats.length,
   (base.total_profit + (stats.map (·.profit_usdt)).sum) /
     ((base.active_days + stats.length : Nat) : ℚ)⟩

/-- Folding statistics into an optional existing aggregate: an empty list of
statistics leaves the entry alone, a non-empty one accumulates into the entry
(which starts at `zeroAgg` when absent). -/
def foldStats (o : Option MonthlyAgg) (stats : List BotDailyStat) : Option MonthlyAgg :=
  match stats with
  | [] => o
  | _ :: _ => some (accAgg (o.getD zeroAgg) stats)

theorem accAgg_append (base : MonthlyAgg) (s1 s2 : List BotDailyStat) :
    accAgg (accAgg base s1) s2 = accAgg base (s1 ++ s2) := by
  simp [accAgg, List.map_append, List.sum_append, List.length_append, add_assoc]

theorem foldStats_append (o : Option MonthlyAgg) (s1 s2 : List BotDailyStat) :
    foldStats (foldStats o s1) s2 = foldStats o (s1 ++ s2) := by
  cases s1 with
  | nil => rfl
  | cons a l =>
    cases s2 with
    | nil => simp [foldStats]
    | cons b l' =>
      show some (accAgg (accAgg (o.getD zeroAgg) (a :: l)) (b :: l')) = _
      rw [accAgg_append]
      rfl

theorem monthlyStep_as_foldStats (acc : List (String × MonthlyAgg))
    (q : String × BotDailyStat) :
    getKey (monthlyStep acc q) q.1 = foldStats (getKey acc q.1) [q.2] := by
  unfold monthlyStep
  rw [getKey_setKey_self]
  show _ = some (accAgg ((getKey acc q.1).getD zeroAgg) [q.2])
  simp [accAgg]

theorem monthlyStep_getKey_ne (acc : List (String × MonthlyAgg))
    (q : String × BotDailyStat) (k : String) (h : q.1 ≠ k) :
    getKey (monthlyStep acc q) k = getKey acc k :=
  getKey_setKey_ne _ _ _ _ h

theorem rec_fold_getKey (rec : DailyRecord) (bot : String) :
    ∀ acc, getKey (rec.foldl monthlyStep acc) bot
      = foldStats (getKey acc bot) (recStatsFor rec bot) := by
  induction rec with
  | nil => intro acc; rfl
  | cons q rest ih =>
    intro acc
    rw [List.foldl_cons, ih]
    by_cases hq : q.1 = bot
    · rw [← hq, monthlyStep_as_foldStats, foldStats_append]
      have : recStatsFor (q :: rest) q.1 = q.2 :: recStatsFor rest q.1 := by
        simp [recStatsFor]
      rw [hq] at this ⊢
      rw [this]
      rfl
    · rw [monthlyStep_getKey_ne _ _ _ hq]
      have : recStatsFor (q :: rest) bot = recStatsFor rest bot := by
        simp [recStatsFor, hq]
      rw [this]

theorem monthly_fold_getKey (m : String) (store : Store) (bot : String) :
    ∀ acc,
      getKey (store.foldl
        (fun acc p =>
          if startsWithStr p.1 m then p.2.foldl monthlyStep acc else acc) acc) bot
      = foldStats (getKey acc bot) (botStatsFor m store bot) := by
  induction store with
  | nil => intro acc; rfl
  | cons p rest ih =>
    intro acc
    rw [List.foldl_cons]
    cases hq : startsWithStr p.1 m
    · simp only [Bool.false_eq_true, if_false]
      rw [ih]
      have : botStatsFor m (p :: rest) bot = botStatsFor m rest bot := by
        simp [botStatsFor, hq]
      rw [this]
    · simp only [if_true]
      rw [ih, rec_fold_getKey, foldStats_append]
      have : botStatsFor m (p :: rest) bot
          = recStatsFor p.2 bot ++ botStatsFor m rest bot := by
        simp [botStatsFor, hq]
      rw [this]

theorem monthly_summary_getKey (m : String) (store : Store) (bot : String) :
    getKey (get_monthly_summary m store) bot
      = foldStats none (botStatsFor m store bot) :=
  monthly_fold_getKey m store bot []

theorem recStatsFor_nil_of_not_mem (rec : DailyRecord) (bot : String)
    (h : bot ∉ rec.map Prod.fst) : recStatsFor rec bot = [] := by
  induction rec with
  | nil => rfl
  | cons q rest ih =>
    simp only [List.map_cons, List.mem_cons, not_or] at h
    have : recStatsFor (q :: rest) bot = recStatsFor rest bot := by
      simp [recStatsFor, Ne.symm h.1]
    rw [this]
    exact ih h.2

theorem recStatsFor_length_nodup (rec : DailyRecord) (bot : String)
    (hnd : (rec.map Prod.fst).Nodup) :
    (recStatsFor rec bot).length = if (getKey rec bot).isSome then 1 else 0 := by
  induction rec with
  | nil => rfl
  | cons q rest ih =>
    simp only [List.map_cons, List.nodup_cons] at hnd
    by_cases hq : q.1 = bot
    · have h1 : recStatsFor (q :: rest) bot = q.2 :: recStatsFor rest bot := by
        simp [recStatsFor, hq]
      have h2 : recStatsFor rest bot = [] :=
        recStatsFor_nil_of_not_mem rest bot (by rw [← hq]; exact hnd.1)
      have h3 : getKey (q :: rest) bot = some q.2 := by simp [getKey, hq]
      rw [h1, h2, h3]
      rfl
    · have h1 : recStatsFor (q :: rest) bot = recStatsFor rest bot := by
        simp [recStatsFor, hq]
      have h3 : getKey (q :: rest) bot = getKey rest bot := by simp [getKey, hq]
      rw [h1, h3]
      exact ih hnd.2

theorem botStatsFor_length (m : String) (store : Store) (bot : String)
    (hnd : ∀ p ∈ store, (p.2.map Prod.fst).Nodup) :
    (botStatsFor m store bot).length =
      store.countP (fun p => startsWithStr p.1 m && (getKey p.2 bot).isSome) := by
  induction store with
  | nil => rfl
  | cons p rest ih =>
    have hrest := ih (fun p' hp' => hnd p' (List.mem_cons_of_mem _ hp'))
    have hp := hnd p (List.mem_cons_self p rest)
    rw [List.countP_cons]
    cases hq : startsWithStr p.1 m
    · have : botStatsFor m (p :: rest) bot = botStatsFor m rest bot := by
        simp [botStatsFor, hq]
      rw [this, hrest]
      simp [hq]
    · have h1 : botStatsFor m (p :: rest) bot
          = recStatsFor p.2 bot ++ botStatsFor m rest bot := by
        simp [botStatsFor, hq]
      rw [h1, List.length_append, hrest, recStatsFor_length_nodup p.2 bot hp]
      cases hs : (getKey p.2 bot).isSome
      · simp [hq, hs]
      · simp [hq, hs, Nat.add_comm]

/-- Claim C2: for any store state, a bot appearing in at least one record of
the current month is reported with `total_profit` the sum of its monthly
`profit_usdt` values, `total_trades` the sum of its `trades_count` values,
`active_days` the number of qualifying records containing it, and
`avg_percentage = total_profit / active_days`. -/
theorem claim_C2 (m : String) (store : Store) (bot : String)
    (hnd : ∀ p ∈ store, (p.2.map Prod.fst).Nodup)
    (hne : botStatsFor m store bot ≠ []) :
    getKey (get_monthly_summary m store) bot =
      some ⟨((botStatsFor m store bot).map (·.profit_usdt)).sum,
            ((botStatsFor m store bot).map (·.trades_count)).sum,
            (botStatsFor m store bot).length,
            ((botStatsFor m store bot).map (·.profit_usdt)).sum /
              ((botStatsFor m store bot).length : ℚ)⟩ ∧
    (botStatsFor m store bot).length =
      store.countP (fun p => startsWithStr p.1 m && (getKey p.2 bot).isSome) := by
  constructor
  · rw [monthly_summary_getKey]
    cases hs : botStatsFor m store bot with
    | nil => exact absurd hs hne
    | cons a l =>
      show some (accAgg (Option.getD none zeroAgg) (a :: l)) = _
      rw [← hs]
      simp [accAgg, zeroAgg]
  · exact botStatsFor_length m store bot hnd

/-- Witness for C2 (Scenario C): two stored days with profits 8.5 and -3.0
(trade counts 3 and 2) for bot X give total profit 5.5, 5 trades, 2 active
days and average 2.75. -/
theorem claim_C2_witness :
    getKey (get_monthly_summary "2025-10"
      [("2025-10-01", [("X", ⟨"S", (8.5 : ℚ), 0, 3⟩)]),
       ("2025-10-02", [("X", ⟨"S", (-3.0 : ℚ), 0, 2⟩)])]) "X"
      = some ⟨(5.5 : ℚ), 5, 2, (2.75 : ℚ)⟩ := by
  have hb : botStatsFor "2025-10"
      [("2025-10-01", [("X", ⟨"S", (8.5 : ℚ), 0, 3⟩)]),
       ("2025-10-02", [("X", ⟨"S", (-3.0 : ℚ), 0, 2⟩)])] "X"
      = [⟨"S", (8.5 : ℚ), 0, 3⟩, ⟨"S", (-3.0 : ℚ), 0, 2⟩] := rfl
  have h := (claim_C2 "2025-10"
    [("2025-10-01", [("X", ⟨"S", (8.5 : ℚ), 0, 3⟩)]),
     ("2025-10-02", [("X", ⟨"S", (-3.0 : ℚ), 0, 2⟩)])] "X"
    (by decide) (by rw [hb]; exact List.cons_ne_nil _ _)).1
  rw [h, hb]
  norm_num

/-! ## Stores reachable by daily passes, and the monthly trade-count bound -/

/-- Stores reachable from the empty initial store by running daily passes
(`calculate_daily_profit`), with arbitrary bot tables, exchange answers and
date strings per pass. -/
inductive ReachableStore : Store → Prop where
  | empty : ReachableStore []
  | step (bots : List (String × BotInfo)) (resp : String → Option FillsResponse)
      (today : String) (s : Store) : ReachableStore s →
      ReachableStore (calculate_daily_profit bots resp today s).1

theorem dailyStep_trades_pos (resp : String → Option FillsResponse)
    (acc : DailyRecord) (b : String × BotInfo)
    (hacc : ∀ q ∈ acc, 1 ≤ q.2.trades_count) :
    ∀ q ∈ dailyStep resp acc b, 1 ≤ q.2.trades_count := by
  intro q hq
  cases hEmpty : (get_trading_history (resp b.2.symbol)).isEmpty
  · simp only [dailyStep, hEmpty, Bool.false_eq_true, if_false] at hq
    rcases mem_setKey _ _ _ _ hq with h1 | h1
    · have hne : get_trading_history (resp b.2.symbol) ≠ [] := by
        intro hnil
        rw [hnil] at hEmpty
        simp at hEmpty
      rw [h1]
      exact List.length_pos.mpr hne
    · exact hacc q h1
  · simp only [dailyStep, hEmpty, if_true] at hq
    exact hacc q hq

theorem daily_fold_trades_pos (resp : String → Option FillsResponse)
    (bots : List (String × BotInfo)) :
    ∀ acc, (∀ q ∈ acc, 1 ≤ q.2.trades_count) →
      ∀ q ∈ bots.foldl (dailyStep resp) acc, 1 ≤ q.2.trades_count := by
  induction bots with
  | nil => intro acc h q hq; exact h q hq
  | cons b rest ih =>
    intro acc h q hq
    rw [List.foldl_cons] at hq
    exact ih (dailyStep resp acc b) (dailyStep_trades_pos resp acc b h) q hq

/-- Every statistic ever stored by a pass counts at least one trade. -/
theorem reachable_trades_pos (s : Store) (h : ReachableStore s) :
    ∀ p ∈ s, ∀ q ∈ p.2, 1 ≤ q.2.trades_count := by
  induction h with
  | empty => intro p hp; simp at hp
  | step bots resp today s hs ih =>
    intro p hp q hq
    rcases mem_setKey _ _ _ _ hp with h1 | h1
    · rw [h1] at hq
      exact daily_fold_trades_pos resp bots [] (by simp) q hq
    · exact ih p h1 q hq

theorem monthlyStep_aggOk (acc : List (String × MonthlyAgg))
    (q : String × BotDailyStat)
    (hacc : ∀ r ∈ acc, 1 ≤ r.2.active_days ∧ r.2.active_days ≤ r.2.total_trades)
    (hq1 : 1 ≤ q.2.trades_count) :
    ∀ r ∈ monthlyStep acc q,
      1 ≤ r.2.active_days ∧ r.2.active_days ≤ r.2.total_trades := by
  intro r hr
  have hcur : 1 ≤ ((getKey acc q.1).getD zeroAgg).active_days + 1 ∧
      ((getKey acc q.1).getD zeroAgg).active_days + 1 ≤
        ((getKey acc q.1).getD zeroAgg).total_trades + q.2.trades_count := by
    cases hget : getKey acc q.1 with
    | none =>
      simp only [Option.getD_none, zeroAgg]
      omega
    | some a =>
      obtain ⟨ha1, ha2⟩ : 1 ≤ a.active_days ∧ a.active_days ≤ a.total_trades :=
        hacc (q.1, a) (getKey_mem acc q.1 a hget)
      simp only [Option.getD_some]
      omega
  simp only [monthlyStep] at hr
  rcases mem_setKey _ _ _ _ hr with h1 | h1
  · rw [h1]
    exact hcur
  · exact hacc r h1

theorem monthly_rec_fold_aggOk (rec : DailyRecord)
    (hrec : ∀ q ∈ rec, 1 ≤ q.2.trades_count) :
    ∀ acc, (∀ r ∈ acc, 1 ≤ r.2.active_days ∧ r.2.active_days ≤ r.2.total_trades) →
      ∀ r ∈ rec.foldl monthlyStep acc,
        1 ≤ r.2.active_days ∧ r.2.active_days ≤ r.2.total_trades := by
  induction rec with
  | nil => intro acc h r hr; exact h r hr
  | cons q rest ih =>
    intro acc h r hr
    rw [List.foldl_cons] at hr
    exact ih (fun q' hq' => hrec q' (List.mem_cons_of_mem _ hq'))
      (monthlyStep acc q)
      (monthlyStep_aggOk acc q h (hrec q (List.mem_cons_self q rest))) r hr

theorem monthly_store_fold_aggOk (m : String) (store : Store)
    (hstore : ∀ p ∈ store, ∀ q ∈ p.2, 1 ≤ q.2.trades_count) :
    ∀ acc, (∀ r ∈ acc, 1 ≤ r.2.active_days ∧ r.2.active_days ≤ r.2.total_trades) →
      ∀ r ∈ store.foldl
        (fun acc p =>
          if startsWithStr p.1 m then p.2.foldl monthlyStep acc else acc) acc,
        1 ≤ r.2.active_days ∧ r.2.active_days ≤ r.2.total_trades := by
  induction store with
  | nil => intro acc h r hr; exact h r hr
  | cons p rest ih =>
    intro acc h r hr
    rw [List.foldl_cons] at hr
    refine ih (fun p' hp' q' hq' => hstore p' (List.mem_cons_of_mem _ hp') q' hq')
      _ ?_ r hr
    cases hq : startsWithStr p.1 m
    · simp only [hq, Bool.false_eq_true, if_false]
      exact h
    · simp only [hq, if_true]
      exact monthly_rec_fold_aggOk p.2
        (hstore p (List.mem_cons_self p rest)) acc h

/-- Claim C10: over any store reachable by daily passes from the empty store,
every bot entry of the monthly summary satisfies
`total_trades >= active_days >= 1`: a bot is only recorded on days where its
fetch returned at least one fill. -/
theorem claim_C10 (s : Store) (h : ReachableStore s) (m : String)
    (bot : String) (agg : MonthlyAgg)
    (hget : getKey (get_monthly_summary m s) bot = some agg) :
    1 ≤ agg.active_days ∧ agg.active_days ≤ agg.total_trades :=
  monthly_store_fold_aggOk m s (reachable_trades_pos s h) []
    (by simp) (bot, agg) (getKey_mem _ _ _ hget)

/-- Witness for C10: one pass over the configured bots, each returning a
single fill of pnl 1, yields a monthly entry with one trade on one active
day, and the bound holds there. -/
theorem claim_C10_witness :
    getKey (get_monthly_summary "2025-10"
      (calculate_daily_profit trading_bots
        (fun _ => some ⟨"0", [⟨some (1 : ℚ)⟩]⟩) "2025-10-01" []).1) "Bot-DCA-BTC"
      = some ⟨1, 1, 1, 1⟩ ∧
    (1 ≤ (MonthlyAgg.mk 1 1 1 1).active_days ∧
      (MonthlyAgg.mk 1 1 1 1).active_days ≤ (MonthlyAgg.mk 1 1 1 1).total_trades) := by
  have hsw : startsWithStr "2025-10-01" "2025-10" = true := by decide
  have hg : getKey (get_monthly_summary "2025-10"
      (calculate_daily_profit trading_bots
        (fun _ => some ⟨"0", [⟨some (1 : ℚ)⟩]⟩) "2025-10-01" []).1) "Bot-DCA-BTC"
      = some ⟨1, 1, 1, 1⟩ := by
    norm_num [calculate_daily_profit, trading_bots, dailyStep, get_trading_history,
      pnlVal, percent_ite, setKey, getKey, get_monthly_summary, monthlyStep,
      zeroAgg, hsw]
  exact ⟨hg, claim_C10 _
    (ReachableStore.step trading_bots (fun _ => some ⟨"0", [⟨some (1 : ℚ)⟩]⟩)
      "2025-10-01" [] ReachableStore.empty) "2025-10" "Bot-DCA-BTC" ⟨1, 1, 1, 1⟩ hg⟩

/-! ## RequestSigner: `generate_signature`

`hmac.new(secret, message, hashlib.sha256)` and `base64.b64encode` are the
standard library primitives the source delegates to; they are embedded here
in full (bytes as `Nat` below 256, 32-bit words as `Nat` reduced mod 2^32). -/

/-- Truncation to a 32-bit word. -/
def w32 (x : Nat) : Nat := x % 4294967296

/-- Rotate a 32-bit word right by `n` places. -/
def rotr32 (n x : Nat) : Nat := w32 ((x >>> n) ||| (x <<< (32 - n)))

def bsig0 (x : Nat) : Nat := rotr32 2 x ^^^ rotr32 13 x ^^^ rotr32 22 x

def bsig1 (x : Nat) : Nat := rotr32 6 x ^^^ rotr32 11 x ^^^ rotr32 25 x

def ssig0 (x : Nat) : Nat := rotr32 7 x ^^^ rotr32 18 x ^^^ (x >>> 3)

def ssig1 (x : Nat) : Nat := rotr32 17 x ^^^ rotr32 19 x ^^^ (x >>> 10)

def chFun (x y z : Nat) : Nat := (x &&& y) ^^^ ((x ^^^ 4294967295) &&& z)

def majFun (x y z : Nat) : Nat := (x &&& y) ^^^ (x &&& z) ^^^ (y &&& z)

def sha256K : List Nat :=
  [1116352408, 1899447441, 3049323471, 3921009573, 961987163,
   1508970993, 2453635748, 2870763221, 3624381080, 310598401,
   607225278, 1426881987, 1925078388, 2162078206, 2614888103,
   3248222580, 3835390401, 4022224774, 264347078, 604807628,
   770255983, 1249150122, 1555081692, 1996064986, 2554220882,
   2821834349, 2952996808, 3210313671, 3336571891, 3584528711,
   113926993, 338241895, 666307205, 773529912, 1294757372,
   1396182291, 1695183700, 1986661051, 2177026350, 2456956037,
   2730485921, 2820302411, 3259730800, 3345764771, 3516065817,
   3600352804, 4094571909, 275423344, 430227734, 506948616,
   659060556, 883997877, 958139571, 1322822218, 1537002063,
   1747873779, 1955562222, 2024104815, 2227730452, 2361852424,
   2428436474, 2756734187, 3204031479, 3329325298]

def sha256H0 : List Nat :=
  [1779033703, 3144134277, 1013904242, 2773480762,
   1359893119, 2600822924, 528734635, 1541459225]

/-- Big-endian 32-bit word `j` of a 64-byte block. -/
def bytesToWord (bs : List Nat) (j : Nat) : Nat :=
  (bs.getD (4 * j) 0) <<< 24 ||| (bs.getD (4 * j + 1) 0) <<< 16 |||
    (bs.getD (4 * j + 2) 0) <<< 8 ||| bs.getD (4 * j + 3) 0

/-- The 64-entry message schedule of one block. -/
def sha256Schedule (block : List Nat) : Array Nat :=
  let init := (List.range 16).foldl (fun a j => a.push (bytesToWord block j)) (Array.mkEmpty 16)
  (List.range 48).foldl
    (fun ws k =>
      ws.push (w32 (ssig1 (ws.getD (k + 14) 0) + ws.getD (k + 9) 0 +
        ssig0 (ws.getD (k + 1) 0) + ws.getD k 0)))
    init

/-- The eight working variables of the compression loop. -/
structure Sha256State where
  a : Nat
  b : Nat
  c : Nat
  d : Nat
  e : Nat
  f : Nat
  g : Nat
  h : Nat

def sha256Round (st : Sha256State) (ki wi : Nat) : Sha256State :=
  let t1 := w32 (st.h + bsig1 st.e + chFun st.e st.f st.g + ki + wi)
  let t2 := w32 (bsig0 st.a + majFun st.a st.b st.c)
  ⟨w32 (t1 + t2), st.a, st.b, st.c, w32 (st.d + t1), st.e, st.f, st.g⟩

def sha256Compress (hs : List Nat) (block : List Nat) : List Nat :=
  let ws := sha256Schedule block
  let st0 : Sha256State :=
    ⟨hs.getD 0 0, hs.getD 1 0, hs.getD 2 0, hs.getD 3 0,
     hs.getD 4 0, hs.getD 5 0, hs.getD 6 0, hs.getD 7 0⟩
  let st := (List.range 64).foldl
    (fun st i => sha256Round st (sha256K.getD i 0) (ws.getD i 0)) st0
  [w32 (hs.getD 0 0 + st.a), w32 (hs.getD 1 0 + st.b), w32 (hs.getD 2 0 + st.c),
   w32 (hs.getD 3 0 + st.d), w32 (hs.getD 4 0 + st.e), w32 (hs.getD 5 0 + st.f),
   w32 (hs.getD 6 0 + st.g), w32 (hs.getD 7 0 + st.h)]

/-- Merkle–Damgård padding: a 0x80 byte, zeros to 56 mod 64, then the bit
length as eight big-endian bytes. -/
def sha256Pad (msg : List Nat) : List Nat :=
  let bitLen := msg.length * 8
  let padZeros := (120 - ((msg.length + 1) % 64)) % 64
  msg ++ [128] ++ List.replicate padZeros 0 ++
    (List.range 8).map (fun i => (bitLen >>> (8 * (7 - i))) % 256)

/-- Digest the 64-byte blocks of a byte list in turn. The first argument is
recursion fuel: one unit is spent per block, and each block consumes at least
one byte, so any fuel at least the byte length processes every block. -/
def sha256Blocks : Nat → List Nat → List Nat → List Nat
  | 0, hs, _ => hs
  | _ + 1, hs, [] => hs
  | fuel + 1, hs, b :: rest =>
      sha256Blocks fuel (sha256Compress hs ((b :: rest).take 64)) ((b :: rest).drop 64)

/-- SHA-256 of a byte list, as its 32-byte digest. -/
def sha256 (msg : List Nat) : List Nat :=
  let padded := sha256Pad msg
  (sha256Blocks padded.length sha256H0 padded).foldr
    (fun w acc => (w >>> 24) % 256 :: (w >>> 16) % 256 :: (w >>> 8) % 256 :: w % 256 :: acc)
    []

/-- HMAC-SHA256 (RFC 2104) with a 64-byte block size. -/
def hmacSha256 (key msg : List Nat) : List Nat :=
  let k0 := if 64 < key.length then sha256 key else key
  let kPad := k0 ++ List.replicate (64 - k0.length) 0
  sha256 ((kPad.map (fun b => b ^^^ 92)) ++
    sha256 ((kPad.map (fun b => b ^^^ 54)) ++ msg))

def base64Chars : List Char :=
  "ABCDEFGHIJKLMNOPQRSTUVWXYZabcdefghijklmnopqrstuvwxyz0123456789+/".data

def b64Char (n : Nat) : Char := base64Chars.getD n 'A'

/-- `base64.b64encode` of a byte list, with padding. -/
def base64Encode : List Nat → String
  | [] => ""
  | [a] => String.mk [b64Char (a >>> 2), b64Char ((a % 4) <<< 4)] ++ "=="
  | [a, b] =>
      String.mk [b64Char (a >>> 2), b64Char (((a % 4) <<< 4) ||| (b >>> 4)),
        b64Char ((b % 16) <<< 2)] ++ "="
  | a :: b :: c :: rest =>
      String.mk [b64Char (a >>> 2), b64Char (((a % 4) <<< 4) ||| (b >>> 4)),
        b64Char (((b % 16) <<< 2) ||| (c >>> 6)), b64Char (c % 64)] ++
        base64Encode rest

/-- UTF-8 encoding of one character. -/
def utf8Bytes (c : Char) : List Nat :=
  let n := c.toNat
  if n < 128 then [n]
  else if n < 2048 then [192 ||| (n >>> 6), 128 ||| (n % 64)]
  else if n < 65536 then
    [224 ||| (n >>> 12), 128 ||| ((n >>> 6) % 64), 128 ||| (n % 64)]
  else
    [240 ||| (n >>> 18), 128 ||| ((n >>> 12) % 64), 128 ||| ((n >>> 6) % 64),
     128 ||| (n % 64)]

/-- `bytes(s, encoding='utf-8')`. -/
def strBytes (s : String) : List Nat := s.data.foldr (fun c acc => utf8Bytes c ++ acc) []

/-- `generate_signature`: base64 of the HMAC-SHA256, under the secret key, of
`timestamp + method + request_path + body`. -/
def generate_signature (secret_key timestamp method request_path body : String) : String :=
  let message := timestamp ++ method ++ request_path ++ body
  base64Encode (hmacSha256 (strBytes secret_key) (strBytes message))

theorem str_append_right_cancel (a b c : String) (h : a ++ c = b ++ c) : a = b := by
  have hd := congrArg String.data h
  rw [String.data_append, String.data_append] at hd
  exact String.ext (List.append_cancel_right hd)

theorem str_append_left_cancel (a b c : String) (h : c ++ a = c ++ b) : a = b := by
  have hd := congrArg String.data h
  rw [String.data_append, String.data_append] at hd
  exact String.ext (List.append_cancel_left hd)

/-- Claim C7: `generate_signature` is base64 of the HMAC-SHA256, keyed by the
secret, of the UTF-8 concatenation `timestamp ++ method ++ request_path ++
body`; it is deterministic in its inputs, and changing exactly one input
always changes the signed message (the witness exhibits concrete inputs on
which the signature output itself changes). -/
theorem claim_C7 (sk t m p b t' m' p' b' : String) :
    generate_signature sk t m p b
      = base64Encode (hmacSha256 (strBytes sk) (strBytes (t ++ m ++ p ++ b))) ∧
    (t = t' → m = m' → p = p' → b = b' →
      generate_signature sk t m p b = generate_signature sk t' m' p' b') ∧
    ((t ≠ t' ∧ m = m' ∧ p = p' ∧ b = b') ∨ (t = t' ∧ m ≠ m' ∧ p = p' ∧ b = b') ∨
        (t = t' ∧ m = m' ∧ p ≠ p' ∧ b = b') ∨ (t = t' ∧ m = m' ∧ p = p' ∧ b ≠ b') →
      t ++ m ++ p ++ b ≠ t' ++ m' ++ p' ++ b') := by
  refine ⟨rfl, ?_, ?_⟩
  · intro h1 h2 h3 h4
    subst h1 h2 h3 h4
    rfl
  · rintro (⟨hne, rfl, rfl, rfl⟩ | ⟨rfl, hne, rfl, rfl⟩ |
      ⟨rfl, rfl, hne, rfl⟩ | ⟨rfl, rfl, rfl, hne⟩) heq
    · exact hne (str_append_right_cancel _ _ _
        (str_append_right_cancel _ _ _ (str_append_right_cancel _ _ _ heq)))
    · exact hne (str_append_left_cancel _ _ _
        (str_append_right_cancel _ _ _ (str_append_right_cancel _ _ _ heq)))
    · exact hne (str_append_left_cancel _ _ _
        (str_append_right_cancel _ _ _ heq))
    · exact hne (str_append_left_cancel _ _ _ heq)

set_option maxRecDepth 400000 in
/-- Witness for C7: concrete distinct timestamps give distinct signed
messages (via the theorem) and, evaluating the embedded HMAC pipeline,
distinct signatures. -/
theorem claim_C7_witness :
    generate_signature "k" "t1" "GET" "/p" ""
      = base64Encode (hmacSha256 (strBytes "k") (strBytes ("t1" ++ "GET" ++ "/p" ++ ""))) ∧
    ("t1" : String) ++ "GET" ++ "/p" ++ "" ≠ "t2" ++ "GET" ++ "/p" ++ "" ∧
    generate_signature "k" "t1" "GET" "/p" "" ≠ generate_signature "k" "t2" "GET" "/p" "" := by
  refine ⟨(claim_C7 "k" "t1" "GET" "/p" "" "t2" "GET" "/p" "").1,
    (claim_C7 "k" "t1" "GET" "/p" "" "t2" "GET" "/p" "").2.2
      (Or.inl ⟨by decide, rfl, rfl, rfl⟩), ?_⟩
  decide

/-! ## ExchangeClient: `make_okx_request`

The network is a function from the prepared request to an outcome: a timeout,
a transport-level fault, or an HTTP response with a status code and a parsed
body. The source issues exactly one such attempt per call; the embedding
consumes exactly one outcome. -/

/-- `self.base_url`. -/
def base_url : String := "https://www.okx.com"

/-- `'&'.join(f"..." for k, v in params.items())` builds `k=v` pairs joined
by ampersands, in dict iteration order. -/
def query_string (params : List (String × String)) : String :=
  String.intercalate "&" (params.map (fun p => p.1 ++ "=" ++ p.2))

/-- The request path: the endpoint, with `?` and the query string appended
when parameters are present (non-empty) and the method is GET. -/
def build_request_path (method endpoint : String)
    (params : List (String × String)) : String :=
  if params ≠ [] ∧ method = "GET" then endpoint ++ "?" ++ query_string params
  else endpoint

/-- The signed-and-addressed request `make_okx_request` prepares before
dispatch. -/
structure PreparedRequest where
  request_path : String
  signature : String
  url : String
deriving DecidableEq

/-- The preparation phase of `make_okx_request`: build the request path, sign
it (empty body), and form the full URL from the base URL. -/
def prepare_okx_request (secret_key burl timestamp method endpoint : String)
    (params : List (String × String)) : PreparedRequest :=
  let request_path := build_request_path method endpoint params
  ⟨request_path,
   generate_signature secret_key timestamp method request_path "",
   burl ++ request_path⟩

/-- Outcome of the single network attempt, as seen by `make_okx_request`:
`timeout` is `asyncio.TimeoutError`, `transportFault` any other raised
exception, and `response` an HTTP reply carrying a status and a parsed body. -/
inductive HttpOutcome (α : Type) where
  | timeout
  | transportFault (msg : String)
  | response (status : Nat) (body : α)

/-- `make_okx_request`: prepare and sign the request, issue the single
attempt, and normalise every failure to `none`; only an HTTP 200 response
returns its parsed body. -/
def make_okx_request (α : Type) (secret_key burl timestamp method endpoint : String)
    (params : List (String × String))
    (attempt : PreparedRequest → HttpOutcome α) : Option α :=
  match attempt (prepare_okx_request secret_key burl timestamp method endpoint params) with
  | .response status body => if status = 200 then some body else none
  | .timeout => none
  | .transportFault _ => none

/-- Claim C6: `make_okx_request` returns `none` on a timeout, on any
transport-level fault and on a non-2xx status; it returns a parsed body only
for status 200; and its result depends only on the one attempt's outcome (a
single attempt, no retry). Totality of the embedding reflects that no
exception propagates. -/
theorem claim_C6 (α : Type) (sk bu ts method endpoint : String)
    (params : List (String × String))
    (attempt attempt2 : PreparedRequest → HttpOutcome α) :
    (attempt (prepare_okx_request sk bu ts method endpoint params) = HttpOutcome.timeout →
      make_okx_request α sk bu ts method endpoint params attempt = none) ∧
    (∀ msg, attempt (prepare_okx_request sk bu ts method endpoint params)
        = HttpOutcome.transportFault msg →
      make_okx_request α sk bu ts method endpoint params attempt = none) ∧
    (∀ s b, attempt (prepare_okx_request sk bu ts method endpoint params)
        = HttpOutcome.response s b → s < 200 ∨ 300 ≤ s →
      make_okx_request α sk bu ts method endpoint params attempt = none) ∧
    (∀ b, make_okx_request α sk bu ts method endpoint params attempt = some b →
      attempt (prepare_okx_request sk bu ts method endpoint params)
        = HttpOutcome.response 200 b) ∧
    (attempt (prepare_okx_request sk bu ts method endpoint params)
        = attempt2 (prepare_okx_request sk bu ts method endpoint params) →
      make_okx_request α sk bu ts method endpoint params attempt
        = make_okx_request α sk bu ts method endpoint params attempt2) := by
  refine ⟨?_, ?_, ?_, ?_, ?_⟩
  · intro h
    simp [make_okx_request, h]
  · intro msg h
    simp [make_okx_request, h]
  · intro s b h hs
    have hne : s ≠ 200 := by omega
    simp [make_okx_request, h, hne]
  · intro b h
    rcases houtcome : attempt (prepare_okx_request sk bu ts method endpoint params) with
      _ | msg | ⟨s, b'⟩
    · rw [make_okx_request, houtcome] at h
      simp at h
    · rw [make_okx_request, houtcome] at h
      simp at h
    · rw [make_okx_request, houtcome] at h
      by_cases hs : s = 200
      · subst hs
        simp at h
        rw [h]
      · simp [hs] at h
  · intro h
    rw [make_okx_request, make_okx_request, h]

/-- Witness for C6: a timeout, a 404 and a 200 on a concrete balance call. -/
theorem claim_C6_witness :
    make_okx_request Nat "sk" base_url "ts" "GET" "/api/v5/account/balance" []
      (fun _ => HttpOutcome.timeout) = none ∧
    make_okx_request Nat "sk" base_url "ts" "GET" "/api/v5/account/balance" []
      (fun _ => HttpOutcome.response 404 7) = none ∧
    make_okx_request Nat "sk" base_url "ts" "GET" "/api/v5/account/balance" []
      (fun _ => HttpOutcome.response 200 7) = some 7 :=
  ⟨(claim_C6 Nat "sk" base_url "ts" "GET" "/api/v5/account/balance" []
      (fun _ => HttpOutcome.timeout) (fun _ => HttpOutcome.timeout)).1 rfl,
   (claim_C6 Nat "sk" base_url "ts" "GET" "/api/v5/account/balance" []
      (fun _ => HttpOutcome.response 404 7) (fun _ => HttpOutcome.response 404 7)).2.2.1
      404 7 rfl (by omega),
   rfl⟩

/-- Claim C8: for GET requests with (non-empty) parameters, the request path
is the endpoint plus `?` plus the `&`-joined `k=v` query string, the
signature is computed over exactly that request path, and the dispatched URL
is the base URL followed by that same path string. -/
theorem claim_C8 (sk bu ts endpoint : String) (params : List (String × String))
    (hp : params ≠ []) :
    (prepare_okx_request sk bu ts "GET" endpoint params).request_path
      = endpoint ++ "?" ++ String.intercalate "&" (params.map (fun p => p.1 ++ "=" ++ p.2)) ∧
    (prepare_okx_request sk bu ts "GET" endpoint params).signature
      = generate_signature sk ts "GET"
          (prepare_okx_request sk bu ts "GET" endpoint params).request_path "" ∧
    (prepare_okx_request sk bu ts "GET" endpoint params).url
      = bu ++ (prepare_okx_request sk bu ts "GET" endpoint params).request_path := by
  have hpath : build_request_path "GET" endpoint params
      = endpoint ++ "?" ++ query_string params := by
    simp [build_request_path, hp]
  exact ⟨hpath, rfl, rfl⟩

/-- Witness for C8 on the fills-history endpoint with the three parameters of
`get_trading_history`. -/
theorem claim_C8_witness :
    (prepare_okx_request "sk" base_url "ts" "GET" "/api/v5/trade/fills-history"
      [("instId", "BTC-USDT"), ("after", "0"), ("before", "1")]).request_path
      = "/api/v5/trade/fills-history?instId=BTC-USDT&after=0&before=1" ∧
    (prepare_okx_request "sk" base_url "ts" "GET" "/api/v5/trade/fills-history"
      [("instId", "BTC-USDT"), ("after", "0"), ("before", "1")]).url
      = base_url ++ (prepare_okx_request "sk" base_url "ts" "GET"
          "/api/v5/trade/fills-history"
          [("instId", "BTC-USDT"), ("after", "0"), ("before", "1")]).request_path := by
  have h := claim_C8 "sk" base_url "ts" "/api/v5/trade/fills-history"
    [("instId", "BTC-USDT"), ("after", "0"), ("before", "1")] (by decide)
  refine ⟨?_, h.2.2⟩
  rw [h.1]
  decide

end OkxTracker
